import Mathlib

/-!
Verification of the fleetapi server core (src/server.js) against its
natural-language specification.

The development shallowly embeds the output-interpretation pipeline
(`parsePossibleJson`), the record normalizer (`extractHostsFromOutput` /
`normalizeHost`), the argument redaction inside `runFleetCommand`, the
request validators, and the four HTTP handler decision procedures.
JavaScript strings are modelled as `List Char`; `JSON.parse` is modelled
by an executable recursive-descent parser `jsonParseL` producing values
of the inductive type `Json`.
-/

/-- JSON-like structured values: the decoded form of command output.
Numbers are represented exactly as a decimal mantissa and a power of ten
(`num m e` denotes `m * 10 ^ e`), avoiding floating point. -/
inductive Json where
  | null : Json
  | bool (b : Bool) : Json
  | num (m : Int) (e : Int) : Json
  | str (s : String) : Json
  | arr (xs : List Json) : Json
  | obj (kvs : List (String × Json)) : Json
deriving Repr

/-- JavaScript whitespace characters, as used by `String.prototype.trim`
and by the character class `\s` in the validation regexes. -/
def jsWsChar (c : Char) : Bool :=
  c = ' ' || c = '\t' || c = '\n' || c = '\r' ||
  c = '\x0b' || c = '\x0c' || c = '\u00A0' || c = '\uFEFF'

/-- Model of `String.prototype.trim` on character lists. -/
def jsTrimL (cs : List Char) : List Char :=
  ((cs.dropWhile jsWsChar).reverse.dropWhile jsWsChar).reverse

/-- Model of `String.prototype.trim`. -/
def jsTrim (s : String) : String :=
  String.mk (jsTrimL s.toList)

/-- Model of `split('\n')`: split a character list on newline characters. -/
def splitNl : List Char → List (List Char)
  | [] => [[]]
  | '\n' :: rest => [] :: splitNl rest
  | c :: rest =>
    match splitNl rest with
    | [] => [[c]]
    | h :: t => (c :: h) :: t

/-- Substring test (model of `String.prototype.includes`): `needle`
occurs contiguously inside `hay`. -/
def strContains (hay needle : String) : Bool :=
  (List.range (hay.toList.length + 1)).any
    (fun i => needle.toList.isPrefixOf (hay.toList.drop i))

/-- `hasAdjacent l x y` holds when `x` occurs in `l` immediately
followed by `y`. -/
def hasAdjacent : List String → String → String → Bool
  | a :: b :: rest, x, y => (a = x && b = y) || hasAdjacent (b :: rest) x y
  | _, _, _ => false

/-- First index of a character satisfying `p` (model of `indexOf`
restricted to a single character class). -/
def findIdxC (p : Char → Bool) : List Char → Option Nat
  | [] => none
  | c :: rest => if p c then some 0 else (findIdxC p rest).map (· + 1)

/-- Last index of a character satisfying `p` (model of `lastIndexOf`). -/
def lastIdxC (p : Char → Bool) (t : List Char) : Option Nat :=
  match findIdxC p t.reverse with
  | some i => some (t.length - 1 - i)
  | none => none

/-- `indexOf` returning `-1` when absent, as in JavaScript. -/
def idxOfI (t : List Char) (c : Char) : Int :=
  match findIdxC (fun d => d = c) t with
  | some i => (i : Int)
  | none => -1

/-- `lastIndexOf` returning `-1` when absent, as in JavaScript. -/
def lastIdxOfI (t : List Char) (c : Char) : Int :=
  match lastIdxC (fun d => d = c) t with
  | some i => (i : Int)
  | none => -1

/-! ## Model of `JSON.parse` -/

/-- JSON insignificant whitespace (the four characters allowed by the
JSON grammar). -/
def jsonWsChar (c : Char) : Bool :=
  c = ' ' || c = '\t' || c = '\n' || c = '\r'

/-- Skip JSON whitespace. -/
def skipJsonWs (cs : List Char) : List Char :=
  cs.dropWhile jsonWsChar

/-- Value of a hexadecimal digit. -/
def hexDigitVal (c : Char) : Option Nat :=
  let n := c.toNat
  if 48 ≤ n && n ≤ 57 then some (n - 48)
  else if 97 ≤ n && n ≤ 102 then some (n - 87)
  else if 65 ≤ n && n ≤ 70 then some (n - 55)
  else none

/-- Single-character string escapes accepted by JSON. -/
def escChar (c : Char) : Option Char :=
  if c = '"' then some '"'
  else if c = '\\' then some '\\'
  else if c = '/' then some '/'
  else if c = 'b' then some '\x08'
  else if c = 'f' then some '\x0c'
  else if c = 'n' then some '\n'
  else if c = 'r' then some '\r'
  else if c = 't' then some '\t'
  else none

/-- Parse the body of a JSON string literal (after the opening quote),
accumulating decoded characters in reverse. -/
def parseStringBody : List Char → List Char → Except String (String × List Char)
  | [], _ => .error "Unterminated string in JSON"
  | '"' :: rest, acc => .ok (String.mk acc.reverse, rest)
  | '\\' :: rest, acc =>
    match rest with
    | [] => .error "Unterminated string in JSON"
    | 'u' :: h1 :: h2 :: h3 :: h4 :: rest2 =>
      match hexDigitVal h1, hexDigitVal h2, hexDigitVal h3, hexDigitVal h4 with
      | some a, some b, some c, some d =>
        parseStringBody rest2 (Char.ofNat (((a * 16 + b) * 16 + c) * 16 + d) :: acc)
      | _, _, _, _ => .error "Bad Unicode escape in JSON"
    | e :: rest2 =>
      match escChar e with
      | some c => parseStringBody rest2 (c :: acc)
      | none => .error "Bad escaped character in JSON"
  | c :: rest, acc =>
    if c.toNat < 32 then .error "Bad control character in JSON string"
    else parseStringBody rest (c :: acc)

/-- Numeric value of a list of decimal digits. -/
def digitsToNat (ds : List Char) : Nat :=
  ds.foldl (fun n c => n * 10 + (c.toNat - '0'.toNat)) 0

/-- Parse an optional exponent part and assemble the number. -/
def parseExpDigits (neg : Bool) (m : Nat) (e : Int) (cs : List Char) :
    Except String (Json × List Char) :=
  let (esign, cs1) :=
    match cs with
    | '+' :: r => ((1 : Int), r)
    | '-' :: r => ((-1 : Int), r)
    | _ => ((1 : Int), cs)
  let ds := cs1.takeWhile Char.isDigit
  let cs2 := cs1.dropWhile Char.isDigit
  if ds = [] then .error "Exponent part is missing a number in JSON"
  else .ok (Json.num (if neg then -(m : Int) else (m : Int)) (e + esign * (digitsToNat ds : Int)), cs2)

/-- Dispatch on a possible exponent marker. -/
def parseExpPart (neg : Bool) (m : Nat) (e : Int) (cs : List Char) :
    Except String (Json × List Char) :=
  match cs with
  | 'e' :: r => parseExpDigits neg m e r
  | 'E' :: r => parseExpDigits neg m e r
  | _ => .ok (Json.num (if neg then -(m : Int) else (m : Int)) e, cs)

/-- Parse the magnitude of a JSON number (everything after an optional
leading minus sign). -/
def parseNumMag (neg : Bool) (cs1 : List Char) : Except String (Json × List Char) :=
  let intDigits := cs1.takeWhile Char.isDigit
  let cs2 := cs1.dropWhile Char.isDigit
  if intDigits = [] then
    .error (match cs1 with
      | c :: _ => "Unexpected token " ++ String.mk [c] ++ " in JSON"
      | [] => "Unexpected end of JSON input")
  else if intDigits.length > 1 && intDigits.getD 0 '0' = '0' then
    .error "Unexpected number in JSON"
  else
    match cs2 with
    | '.' :: r =>
      let fr := r.takeWhile Char.isDigit
      let cs3 := r.dropWhile Char.isDigit
      if fr = [] then .error "Unterminated fractional number in JSON"
      else parseExpPart neg (digitsToNat (intDigits ++ fr)) (-(fr.length : Int)) cs3
    | _ => parseExpPart neg (digitsToNat intDigits) 0 cs2

/-- Parse a JSON number, dispatching on a leading minus sign. -/
def parseNumber : List Char → Except String (Json × List Char)
  | '-' :: r => parseNumMag true r
  | cs => parseNumMag false cs

/-- Parse the literals `null`, `true`, `false`. -/
def parseLiteral (cs : List Char) : Except String (Json × List Char) :=
  if ['n', 'u', 'l', 'l'].isPrefixOf cs then .ok (Json.null, cs.drop 4)
  else if ['t', 'r', 'u', 'e'].isPrefixOf cs then .ok (Json.bool true, cs.drop 4)
  else if ['f', 'a', 'l', 's', 'e'].isPrefixOf cs then .ok (Json.bool false, cs.drop 5)
  else
    match cs with
    | c :: _ => .error ("Unexpected token " ++ String.mk [c] ++ " in JSON")
    | [] => .error "Unexpected end of JSON input"

/-- Insert a key into an object's field list with JavaScript semantics:
an existing key keeps its position and gets the new value, a new key is
appended at the end. -/
def insertKey (kvs : List (String × Json)) (k : String) (v : Json) :
    List (String × Json) :=
  if kvs.any (fun kv => kv.1 = k) then
    kvs.map (fun kv => if kv.1 = k then (k, v) else kv)
  else kvs ++ [(k, v)]

mutual

/-- Recursive-descent JSON value parser (fuel-indexed; the fuel supplied
by `jsonParseL` is always sufficient for the input length). Expects no
leading whitespace. -/
def parseValue : Nat → List Char → Except String (Json × List Char)
  | 0, _ => .error "JSON input too deeply nested"
  | Nat.succ f, cs =>
    match cs with
    | [] => .error "Unexpected end of JSON input"
    | '{' :: rest => parseMembersStart f (skipJsonWs rest)
    | '[' :: rest => parseItemsStart f (skipJsonWs rest)
    | '"' :: rest =>
      match parseStringBody rest [] with
      | .ok (s, rest2) => .ok (Json.str s, rest2)
      | .error e => .error e
    | c :: _ =>
      if c = 'n' || c = 't' || c = 'f' then parseLiteral cs
      else if c = '-' || c.isDigit then parseNumber cs
      else .error ("Unexpected token " ++ String.mk [c] ++ " in JSON")

/-- Array items: handles the empty-array case. -/
def parseItemsStart : Nat → List Char → Except String (Json × List Char)
  | 0, _ => .error "JSON input too deeply nested"
  | Nat.succ f, cs =>
    match cs with
    | ']' :: rest => .ok (Json.arr [], rest)
    | _ => parseItems f cs []

/-- Array items: one or more comma-separated values. -/
def parseItems : Nat → List Char → List Json → Except String (Json × List Char)
  | 0, _, _ => .error "JSON input too deeply nested"
  | Nat.succ f, cs, acc =>
    match parseValue f (skipJsonWs cs) with
    | .error e => .error e
    | .ok (v, rest) =>
      match skipJsonWs rest with
      | ',' :: rest2 => parseItems f rest2 (v :: acc)
      | ']' :: rest2 => .ok (Json.arr (v :: acc).reverse, rest2)
      | c :: _ => .error ("Unexpected token " ++ String.mk [c] ++ " in JSON")
      | [] => .error "Unexpected end of JSON input"

/-- Object members: handles the empty-object case. -/
def parseMembersStart : Nat → List Char → Except String (Json × List Char)
  | 0, _ => .error "JSON input too deeply nested"
  | Nat.succ f, cs =>
    match cs with
    | '}' :: rest => .ok (Json.obj [], rest)
    | _ => parseMembers f cs []

/-- Object members: one or more comma-separated key/value pairs.
Duplicate keys follow JavaScript semantics via `insertKey`. -/
def parseMembers : Nat → List Char → List (String × Json) →
    Except String (Json × List Char)
  | 0, _, _ => .error "JSON input too deeply nested"
  | Nat.succ f, cs, acc =>
    match skipJsonWs cs with
    | '"' :: rest =>
      match parseStringBody rest [] with
      | .error e => .error e
      | .ok (k, rest2) =>
        match skipJsonWs rest2 with
        | ':' :: rest3 =>
          match parseValue f (skipJsonWs rest3) with
          | .error e => .error e
          | .ok (v, rest4) =>
            match skipJsonWs rest4 with
            | ',' :: rest5 => parseMembers f rest5 (insertKey acc k v)
            | '}' :: rest5 => .ok (Json.obj (insertKey acc k v), rest5)
            | c :: _ => .error ("Unexpected token " ++ String.mk [c] ++ " in JSON")
            | [] => .error "Unexpected end of JSON input"
        | c :: _ => .error ("Unexpected token " ++ String.mk [c] ++ " in JSON")
        | [] => .error "Unexpected end of JSON input"
    | c :: _ => .error ("Unexpected token " ++ String.mk [c] ++ " in JSON")
    | [] => .error "Unexpected end of JSON input"

end

/-- Model of `JSON.parse` on character lists: parse one JSON value
surrounded by optional whitespace; trailing content is an error. -/
def jsonParseL (cs : List Char) : Except String Json :=
  let cs1 := skipJsonWs cs
  match parseValue (3 * cs1.length + 3) cs1 with
  | .error e => .error e
  | .ok (v, rest) =>
    match skipJsonWs rest with
    | [] => .ok v
    | c :: _ => .error ("Unexpected token " ++ String.mk [c] ++ " after JSON data")

/-- Model of `JSON.parse` on strings. -/
def jsonParse (s : String) : Except String Json :=
  jsonParseL s.toList


/-! ## Output Interpreter: `parsePossibleJson` (src/server.js lines 56-97) -/

/-- Non-blank trimmed lines of the trimmed output: model of
`trimmed.split('\n').map(line => line.trim()).filter(Boolean)`. -/
def nonBlankLines (t : List Char) : List (List Char) :=
  ((splitNl t).map jsTrimL).filter (fun l => l ≠ [])

/-- The NDJSON loop body: parse every line in order, abandoning the
whole traversal on the first failure (models the `ndjsonValid` loop —
no partial results). -/
def tryParseAll (p : List Char → Except String Json) : List (List Char) → Option (List Json)
  | [] => some []
  | l :: rest =>
    match (p l).toOption with
    | none => none
    | some v =>
      match tryParseAll p rest with
      | none => none
      | some vs => some (v :: vs)

/-- NDJSON strategy: when more than one non-blank line remains, parse
every line; all must succeed for the strategy to produce a value.
Models the `lines.length > 1` loop in `parsePossibleJson`. -/
def ndjsonTry (p : List Char → Except String Json) (t : List Char) : Option Json :=
  if (nonBlankLines t).length > 1 then
    (tryParseAll p (nonBlankLines t)).map Json.arr
  else none

/-- Start index for embedded-JSON extraction: the smaller of
`indexOf('[')` and `indexOf('{')` among those that are present,
`-1` when neither occurs (as in the source's `Math.min` over the
filtered candidate list). -/
def jsonStartOf (t : List Char) : Int :=
  match [idxOfI t '[', idxOfI t '{'].filter (fun i => i ≥ 0) with
  | [] => -1
  | x :: xs => xs.foldl min x

/-- End index for embedded-JSON extraction:
`Math.max(lastIndexOf(']'), lastIndexOf('}'))`. -/
def jsonEndOf (t : List Char) : Int :=
  max (lastIdxOfI t ']') (lastIdxOfI t '}')

/-- Embedded-JSON extraction strategy and the final error of
`parsePossibleJson`: slice from the start index to the end index
inclusive and parse it when the span is valid, otherwise raise the
"No valid JSON found" error carrying the first strategy's message. -/
def embeddedTry (p : List Char → Except String Json) (t : List Char)
    (firstErr : String) : Except String Json :=
  if jsonStartOf t ≥ 0 ∧ jsonEndOf t > jsonStartOf t then
    p ((t.drop (jsonStartOf t).toNat).take ((jsonEndOf t).toNat + 1 - (jsonStartOf t).toNat))
  else
    .error ("No valid JSON found in fleetctl output (" ++ firstErr ++ ")")

/-- The Output Interpreter `parsePossibleJson`, parameterised by the
JSON decoder so that independence from the decoder can be stated. The
returned `Except.error` models the thrown `ParseError`. -/
def parsePossibleJsonWith (p : List Char → Except String Json) (raw : String) :
    Except String Json :=
  if jsTrimL raw.toList = [] then .error "Empty output from fleetctl"
  else
    match p (jsTrimL raw.toList) with
    | .ok v => .ok v
    | .error firstErr =>
      match ndjsonTry p (jsTrimL raw.toList) with
      | some v => .ok v
      | none => embeddedTry p (jsTrimL raw.toList) firstErr

/-- `parsePossibleJson` from src/server.js, with `JSON.parse` modelled
by `jsonParseL`. -/
def parsePossibleJson (raw : String) : Except String Json :=
  parsePossibleJsonWith jsonParseL raw

/-! ## Record Normalizer: `extractHostsFromOutput` (src/server.js lines 99-160) -/

/-- JavaScript truthiness of a structured value. Objects and arrays are
always truthy; `0`, `false`, `null` and the empty string are falsy. -/
def jsTruthy : Json → Bool
  | .null => false
  | .bool b => b
  | .num m _ => m ≠ 0
  | .str s => s ≠ ""
  | .arr _ => true
  | .obj _ => true

/-- First binding of a key in an object's field list. -/
def lookupKv : List (String × Json) → String → Option Json
  | [], _ => none
  | kv :: rest, k => if kv.1 = k then some kv.2 else lookupKv rest k

/-- Property access `v[k]` for the (non-numeric) keys used by the
normalizer: objects look the key up, every other shape yields
`undefined` (modelled as `none`). -/
def getField : Json → String → Option Json
  | .obj kvs, k => lookupKv kvs k
  | _, _ => none

mutual

/-- JavaScript `String(v)` coercion for structured values. -/
def jsToString : Json → String
  | .null => "null"
  | .bool b => if b then "true" else "false"
  | .num m e => renderNum m e
  | .str s => s
  | .arr xs => joinElems xs
  | .obj _ => "[object Object]"

/-- Array `toString`/`join(',')`: elements joined by commas, with
`null` rendered as the empty string. -/
def joinElems : List Json → String
  | [] => ""
  | [x] => match x with
    | .null => ""
    | v => jsToString v
  | x :: xs =>
    (match x with
      | .null => ""
      | v => jsToString v) ++ "," ++ joinElems xs

/-- Decimal rendering of `m * 10 ^ e` (exact, no floating point). -/
def renderNum (m e : Int) : String :=
  if e ≥ 0 then toString (m * (10 : Int) ^ e.toNat)
  else
    let n := (-e).toNat
    let a := m.natAbs
    let ip := a / 10 ^ n
    let frDigits := toString (a % 10 ^ n)
    let frPadded := String.mk (List.replicate (n - frDigits.length) '0') ++ frDigits
    let fr := String.mk (frPadded.toList.reverse.dropWhile (fun c => c = '0')).reverse
    (if m < 0 then "-" else "") ++ toString ip ++ (if fr = "" then "" else "." ++ fr)

end

/-- `join(sep)` on a list of structured values. -/
def joinJs (sep : String) (xs : List Json) : String :=
  String.intercalate sep (xs.map (fun x => match x with
    | Json.null => ""
    | v => jsToString v))

/-- Fields contributed by object spread `\x7b...v\x7d`: objects spread
their fields, arrays and strings spread index/character pairs, and
primitives contribute nothing. -/
def spreadFields : Json → List (String × Json)
  | .obj kvs => kvs
  | .arr xs => xs.enum.map (fun p => (toString p.1, p.2))
  | .str s => s.toList.enum.map (fun p => (toString p.1, Json.str (String.mk [p.2])))
  | _ => []

/-- `v.spec || \x7b\x7d` style access: the field's value when it is
truthy, an empty object otherwise. -/
def fieldOrEmptyObj (v : Json) (k : String) : Json :=
  match getField v k with
  | some w => if jsTruthy w then w else Json.obj []
  | none => Json.obj []

/-- `host && typeof host === 'object'`: objects and arrays qualify
(both are truthy and of type `object`); `null` is falsy. -/
def isObjLike : Json → Bool
  | .obj _ => true
  | .arr _ => true
  | _ => false

/-- The `spec` layer of a host record: `host.spec || \x7b\x7d` when the
host is object-like, an empty object otherwise. -/
def specOf (host : Json) : Json :=
  if isObjLike host then fieldOrEmptyObj host "spec" else Json.obj []

/-- The `detail` layer of a host record. -/
def detailOf (host : Json) : Json :=
  if isObjLike host then fieldOrEmptyObj host "detail" else Json.obj []

/-- The `mdm` layer: `spec.mdm || \x7b\x7d`. -/
def mdmOfSpec (spec : Json) : Json :=
  fieldOrEmptyObj spec "mdm"

/-- First truthy candidate of a `a || b || ... || ''` chain, where
`none` models an absent property (`undefined`). -/
def firstTruthy : List (Option Json) → Option Json
  | [] => none
  | some v :: rest => if jsTruthy v then some v else firstTruthy rest
  | none :: rest => firstTruthy rest

/-- `String(chain || '')`: coerce the first truthy candidate to a
string, defaulting to the empty string. -/
def chainVal (cands : List (Option Json)) : String :=
  match firstTruthy cands with
  | some v => jsToString v
  | none => ""

/-- Candidate chain for the canonical `uuid` field, in source order. -/
def uuidCands (host : Json) : List (Option Json) :=
  [getField host "uuid", getField (specOf host) "uuid",
   getField (specOf host) "hardware_uuid", getField (detailOf host) "uuid",
   getField (detailOf host) "hardware_uuid"]

/-- Candidate chain for the canonical `hostname` field, in source order. -/
def hostnameCands (host : Json) : List (Option Json) :=
  [getField host "hostname", getField (specOf host) "hostname",
   getField (specOf host) "computer_name", getField (specOf host) "display_name",
   getField (detailOf host) "hostname"]

/-- Candidate chain for the canonical `platform` field, in source order. -/
def platformCands (host : Json) : List (Option Json) :=
  [getField host "platform", getField (specOf host) "platform",
   getField (specOf host) "osquery_platform"]

/-- Candidate chain for the canonical `status` field, in source order. -/
def statusCands (host : Json) : List (Option Json) :=
  [getField host "status", getField (specOf host) "status",
   getField (mdmOfSpec (specOf host)) "enrollment_status"]

/-- `normalizeHost` from `extractHostsFromOutput`: spread the original
element and set the four canonical fields to their coerced chain
values. -/
def normalizeHost (host : Json) : Json :=
  Json.obj
    (insertKey
      (insertKey
        (insertKey
          (insertKey (spreadFields host) "uuid" (Json.str (chainVal (uuidCands host))))
          "hostname" (Json.str (chainVal (hostnameCands host))))
        "platform" (Json.str (chainVal (platformCands host))))
      "status" (Json.str (chainVal (statusCands host))))

/-- `extractHostsFromOutput` from src/server.js: shape resolution over
the decoded output. -/
def extractHostsFromOutput (parsedOutput : Json) : List Json :=
  match parsedOutput with
  | .arr xs => xs.map normalizeHost
  | .obj _ =>
    (match getField parsedOutput "hosts" with
      | some (.arr hs) => hs.map normalizeHost
      | _ =>
        match getField parsedOutput "data" with
        | some (.arr ds) => ds.map normalizeHost
        | _ => [normalizeHost parsedOutput])
  | _ => []

/-! ## Validators and HTTP handler decisions (src/server.js lines 160-302) -/

/-- Characters admitted by the regex class `[a-zA-Z0-9._-]`. -/
def ctxChar (c : Char) : Bool :=
  c.isAlphanum || c = '.' || c = '_' || c = '-'

/-- The regex test `/^[a-zA-Z0-9._-]+$/.test(s)` on a plain string. -/
def ctxPatternTest (s : String) : Bool :=
  s ≠ "" && s.toList.all ctxChar

/-- `context || 'default'`: absent (or `null`) and empty contexts
default to the literal string `"default"`. `none` models both an absent
and a `null` body field, which behave identically under `||`. -/
def ctxOrDefault : Option String → String
  | some s => if s = "" then "default" else s
  | none => "default"

/-- `isValidContext` from src/server.js: the pattern is tested against
`str || 'default'`. -/
def isValidContext (o : Option String) : Bool :=
  ctxPatternTest (ctxOrDefault o)

/-- The regex test `/^[^\s@]+@[^\s@]+\.[^\s@]+$/.test(s)`: exactly one
`@`, no whitespace, non-empty local part, and a dot in the domain with
non-empty text on both sides. -/
def isValidEmailStr (s : String) : Bool :=
  let cs := s.toList
  cs.count '@' = 1 && cs.all (fun c => !jsWsChar c) &&
  (match findIdxC (fun c => c = '@') cs with
   | some i =>
     let a := cs.take i
     let b := cs.drop (i + 1)
     a ≠ [] && b ≠ [] && ((b.drop 1).dropLast.contains '.')
   | none => false)

/-- `isValidEmail` on an optional body field; an absent field is
coerced by the regex test to the string `"undefined"`, which fails. -/
def isValidEmail : Option String → Bool
  | some s => isValidEmailStr s
  | none => isValidEmailStr "undefined"

/-- `isValidUUID`: exactly 36 characters, each a hex digit or a dash. -/
def isValidUUID (s : String) : Bool :=
  s.toList.length = 36 &&
  s.toList.all (fun c => c.isDigit || ('a' ≤ c && c ≤ 'f') || ('A' ≤ c && c ≤ 'F') || c = '-')

/-- `isValidFilename`: the context character class plus a directory
traversal check. -/
def isValidFilename (s : String) : Bool :=
  ctxPatternTest s && !strContains s ".."

/-- Characters admitted by the host identifier regex
`[a-zA-Z0-9._\- ]`. -/
def hostIdChar (c : Char) : Bool :=
  ctxChar c || c = ' '

/-- `isValidHostIdentifier` on a structured body element: non-strings
fail the `typeof` check; strings are trimmed, must be non-empty, and
must be a UUID or match the hostname/serial pattern. -/
def isValidHostIdentifier : Json → Bool
  | .str s =>
    let t := jsTrim s
    if t = "" then false
    else isValidUUID t || (t ≠ "" && t.toList.all hostIdChar)
  | _ => false

/-- Redaction inside `runFleetCommand` (`safeArgs`), index-aware worker:
`i` is the index of the first element of the remaining list within the
full vector `args`. -/
def safeArgsAux (args : List String) : Nat → List String → List String
  | _, [] => []
  | i, a :: rest =>
    (if i > 0 && args.getD (i - 1) "" = "--password" then "******" else a) ::
      safeArgsAux args (i + 1) rest

/-- `safeArgs` from `runFleetCommand`: mask every argument that
immediately follows `--password`. -/
def safeArgs (args : List String) : List String :=
  safeArgsAux args 0 args

/-- The observable effect of `runFleetCommand` before the child process
reports back: the redacted vector is logged, the original vector is
executed. -/
structure FleetInvocation where
  loggedArgs : List String
  executedArgs : List String
deriving Repr, DecidableEq

/-- `runFleetCommand` (src/server.js lines 22-31), up to process
execution: it logs `safeArgs args` and passes `args` to `execFile`. -/
def runFleetCommand (args : List String) : FleetInvocation :=
  { loggedArgs := safeArgs args, executedArgs := args }

/-- Outcome of a handler's synchronous prelude: either an HTTP error
response (no process is spawned) or an invocation of the fleet command
with a concrete argument vector. -/
inductive Decision where
  | reject (status : Nat) (message : String) : Decision
  | run (args : List String) : Decision
deriving Repr, DecidableEq

/-- `true` exactly for the error outcome. -/
def Decision.isReject : Decision → Bool
  | .reject _ _ => true
  | .run _ => false

/-- Model of `String.prototype.startsWith`. -/
def strStartsWith (s pre : String) : Bool :=
  pre.toList.isPrefixOf s.toList

/-- Handler of `POST /api/config`. Body fields are modelled as optional
strings (`none` = absent or `null`). -/
def configHandler (address context : Option String) : Decision :=
  match address with
  | none => .reject 400 "Invalid address URL"
  | some a =>
    if a = "" || !strStartsWith a "http" then .reject 400 "Invalid address URL"
    else if !isValidContext context then .reject 400 "Invalid context name"
    else .run ["config", "set", "--address", a, "--context", ctxOrDefault context]

/-- Handler of `POST /api/login`. An absent email fails the email regex
(the test coerces `undefined` to the string `"undefined"`). -/
def loginHandler (email password context : Option String) : Decision :=
  if !isValidEmail email then .reject 400 "Invalid email format"
  else
    match email with
    | none => .reject 400 "Invalid email format"
    | some e =>
      match password with
      | none => .reject 400 "Password required"
      | some p =>
        if p = "" then .reject 400 "Password required"
        else .run ["login", "--email", e, "--password", p, "--context", ctxOrDefault context]

/-- Handler of `GET /api/hosts`. The query parameter is defaulted with
`|| 'default'` before validation. -/
def hostsHandler (contextQuery : Option String) : Decision :=
  let context := ctxOrDefault contextQuery
  if !isValidContext (some context) then .reject 400 "Invalid context name"
  else .run ["get", "hosts", "--mdm", "--json", "--context", context]

/-- Handler of `POST /api/run-command`. `hosts` is `none` when the body
field is absent or not an array; `payloadExists` abstracts
`fs.existsSync` on the joined payload path and `joinPath` abstracts
`path.join(PAYLOADS_DIR, ·)`. -/
def runCommandHandler (payloadExists : String → Bool) (joinPath : String → String)
    (hosts : Option (List Json)) (payload context : Option String) : Decision :=
  match hosts with
  | none => .reject 400 "No hosts selected"
  | some hs =>
    if hs.isEmpty then .reject 400 "No hosts selected"
    else if !isValidContext context then .reject 400 "Invalid context name"
    else if !(hs.filter (fun h => !isValidHostIdentifier h)).isEmpty then
      .reject 400 ("Invalid host identifiers detected: " ++
        joinJs ", " (hs.filter (fun h => !isValidHostIdentifier h)))
    else
      match payload with
      | none => .reject 400 "Invalid payload filename"
      | some pl =>
        if pl = "" || !isValidFilename pl then .reject 400 "Invalid payload filename"
        else if !payloadExists (joinPath pl) then .reject 404 "Payload file not found"
        else .run ["mdm", "run-command", "--payload", joinPath pl,
                   "--hosts", joinJs "," hs, "--context", ctxOrDefault context]


/-! ## Helper lemmas -/

/-- Trimming to the empty string is the same as trimming to the empty
character list. -/
lemma jsTrim_eq_empty_iff (raw : String) : jsTrim raw = "" ↔ jsTrimL raw.toList = [] := by
  have hd : (jsTrim raw).data = jsTrimL raw.toList := rfl
  constructor
  · intro h
    rw [← hd, h]
  · intro h
    apply String.ext
    rw [hd, h]

/-- A string occurs inside any surrounding of itself. -/
lemma strContains_middle (a b c : String) : strContains (a ++ b ++ c) b = true := by
  unfold strContains
  rw [List.any_eq_true]
  refine ⟨a.toList.length, ?_, ?_⟩
  · rw [List.mem_range]
    have h : (a ++ b ++ c).toList = a.toList ++ (b.toList ++ c.toList) := by
      simp [String.toList, String.data_append]
    rw [h, List.length_append]
    omega
  · have h : (a ++ b ++ c).toList = a.toList ++ (b.toList ++ c.toList) := by
      simp [String.toList, String.data_append]
    rw [h, List.drop_left]
    exact List.isPrefixOf_iff_prefix.mpr (List.prefix_append _ _)

/-- Length is preserved by the redaction worker. -/
lemma safeArgsAux_length (args : List String) :
    ∀ (l : List String) (i : Nat), (safeArgsAux args i l).length = l.length := by
  intro l
  induction l with
  | nil => intro i; rfl
  | cons a rest ih => intro i; simp [safeArgsAux, ih]

/-- Pointwise description of the redaction worker: position `j` of the
worker output is position `i + j` of the full vector. -/
lemma safeArgsAux_getD (args : List String) :
    ∀ (l : List String) (i j : Nat), j < l.length →
      (safeArgsAux args i l).getD j "" =
        if 0 < i + j ∧ args.getD (i + j - 1) "" = "--password" then "******"
        else l.getD j "" := by
  intro l
  induction l with
  | nil => intro i j h; simp at h
  | cons a rest ih =>
    intro i j h
    cases j with
    | zero =>
      show (safeArgsAux args i (a :: rest)).getD 0 "" = _
      by_cases h1 : 0 < i
      · by_cases h2 : args.getD (i - 1) "" = "--password"
        · simp [safeArgsAux, h1, h2]
        · simp [safeArgsAux, h1, h2]
      · simp [safeArgsAux, h1]
    | succ j' =>
      have hj : j' < rest.length := by simpa using Nat.lt_of_succ_lt_succ (by simpa using h)
      have hrec := ih (i + 1) j' hj
      have harith : i + 1 + j' = i + (j' + 1) := by omega
      calc (safeArgsAux args i (a :: rest)).getD (j' + 1) ""
          = (safeArgsAux args (i + 1) rest).getD j' "" := by
            simp [safeArgsAux]
        _ = if 0 < i + (j' + 1) ∧ args.getD (i + (j' + 1) - 1) "" = "--password" then "******"
            else rest.getD j' "" := by rw [hrec, harith]
        _ = if 0 < i + (j' + 1) ∧ args.getD (i + (j' + 1) - 1) "" = "--password" then "******"
            else (a :: rest).getD (j' + 1) "" := by simp

/-- C3: the redaction step of `runFleetCommand` masks exactly the
positions whose predecessor is `--password` and leaves every other
position identical; the redacted vector is the logged one and the
original (unmutated — the model is pure, and `safeArgs` builds a fresh
list) vector is the executed one. -/
theorem safeArgs_redacts (args : List String) :
    (safeArgs args).length = args.length ∧
    (∀ i, i < args.length →
      ((0 < i ∧ args.getD (i - 1) "" = "--password") →
        (safeArgs args).getD i "" = "******") ∧
      (¬ (0 < i ∧ args.getD (i - 1) "" = "--password") →
        (safeArgs args).getD i "" = args.getD i "")) ∧
    (runFleetCommand args).executedArgs = args ∧
    (runFleetCommand args).loggedArgs = safeArgs args := by
  refine ⟨safeArgsAux_length args args 0, ?_, rfl, rfl⟩
  intro i hi
  have h := safeArgsAux_getD args args 0 i hi
  rw [Nat.zero_add] at h
  constructor
  · intro hc
    rw [safeArgs, h, if_pos hc]
  · intro hc
    rw [safeArgs, h, if_neg hc]

/-- Witness for C3 at a concrete vector: the password value is masked,
other positions are unchanged, and the executed vector is the original. -/
theorem safeArgs_redacts_witness :
    (safeArgs ["login", "--password", "pw"]).getD 2 "" = "******" ∧
    (safeArgs ["login", "--password", "pw"]).getD 0 "" = "login" ∧
    (runFleetCommand ["login", "--password", "pw"]).executedArgs =
      ["login", "--password", "pw"] := by
  have h := safeArgs_redacts ["login", "--password", "pw"]
  refine ⟨?_, ?_, h.2.2.1⟩
  · exact (h.2.1 2 (by decide)).1 ⟨by decide, by decide⟩
  · exact (h.2.1 0 (by decide)).2 (by decide)

/-- C2 (amended): empty or whitespace-only output is rejected with the
message "Empty output from fleetctl" (which contains "Empty output",
capital E) before any decode strategy runs — the result is the same for
every decoder `p`, so no strategy is consulted. -/
theorem parsePossibleJson_emptyOutput (p : List Char → Except String Json) (raw : String)
    (h : jsTrim raw = "") :
    parsePossibleJsonWith p raw = .error "Empty output from fleetctl" ∧
    strContains "Empty output from fleetctl" "Empty output" = true := by
  have h' : jsTrimL raw.toList = [] := (jsTrim_eq_empty_iff raw).mp h
  constructor
  · unfold parsePossibleJsonWith
    rw [if_pos h']
  · decide

/-- Witness for C2 at a concrete whitespace-only input. -/
theorem parsePossibleJson_emptyOutput_witness :
    jsTrim " \n " = "" ∧ parsePossibleJson " \n " = .error "Empty output from fleetctl" := by
  refine ⟨by decide, ?_⟩
  exact (parsePossibleJson_emptyOutput jsonParseL " \n " (by decide)).1

/-- Counterexample for C2 as stated: the raised message is
"Empty output from fleetctl", which does not contain the literal
lowercase string "empty output". -/
theorem parsePossibleJson_emptyOutput_cex :
    parsePossibleJson "" = .error "Empty output from fleetctl" ∧
    strContains "Empty output from fleetctl" "empty output" = false := by
  exact ⟨rfl, by decide⟩

/-- When the input is non-empty, direct decode fails and NDJSON fails,
the interpreter falls through to the embedded-extraction step. -/
lemma parsePossibleJsonWith_error_branch (p : List Char → Except String Json)
    (raw : String) (fe : String)
    (h0 : jsTrimL raw.toList ≠ [])
    (h1 : p (jsTrimL raw.toList) = .error fe)
    (h2 : ndjsonTry p (jsTrimL raw.toList) = none) :
    parsePossibleJsonWith p raw = embeddedTry p (jsTrimL raw.toList) fe := by
  unfold parsePossibleJsonWith
  rw [if_neg h0, h1, h2]

/-- C1 (amended): when every strategy fails and no embedded span was
found (no start bracket, or the last end bracket is not strictly after
the start), the raised `ParseError` is the "No valid JSON found" error
carrying the first strategy's decode error message as a substring. -/
theorem parsePossibleJson_allFail_noSpan (p : List Char → Except String Json)
    (raw : String) (fe : String)
    (h0 : jsTrim raw ≠ "")
    (h1 : p (jsTrimL raw.toList) = .error fe)
    (h2 : ndjsonTry p (jsTrimL raw.toList) = none)
    (h3 : ¬ (jsonStartOf (jsTrimL raw.toList) ≥ 0 ∧
             jsonEndOf (jsTrimL raw.toList) > jsonStartOf (jsTrimL raw.toList))) :
    parsePossibleJsonWith p raw =
      .error ("No valid JSON found in fleetctl output (" ++ fe ++ ")") ∧
    strContains ("No valid JSON found in fleetctl output (" ++ fe ++ ")") fe = true := by
  have h0' : jsTrimL raw.toList ≠ [] := fun hh => h0 ((jsTrim_eq_empty_iff raw).mpr hh)
  constructor
  · rw [parsePossibleJsonWith_error_branch p raw fe h0' h1 h2]
    unfold embeddedTry
    rw [if_neg h3]
  · exact strContains_middle "No valid JSON found in fleetctl output (" fe ")"

/-- Witness for C1 (amended) at a concrete bracket-free input. -/
theorem parsePossibleJson_allFail_noSpan_witness :
    parsePossibleJson "hello" =
      .error "No valid JSON found in fleetctl output (Unexpected token h in JSON)" := by
  have h := parsePossibleJson_allFail_noSpan jsonParseL "hello" "Unexpected token h in JSON"
    (by decide) (by rfl) (by rfl) (by decide)
  exact h.1.trans rfl

/-- Counterexample for C1 as stated: on input `a\x7bx\x7d` every
strategy fails and an embedded span is found (start 1, end 3), but the
raised error is the sliced candidate's decode error, which does not
carry the first strategy's message. -/
theorem parsePossibleJson_spanError_cex :
    parsePossibleJson "a\x7bx\x7d" = .error "Unexpected token x in JSON" ∧
    jsonParseL (jsTrimL ("a\x7bx\x7d").toList) = .error "Unexpected token a in JSON" ∧
    strContains "Unexpected token x in JSON" "Unexpected token a in JSON" = false := by
  exact ⟨rfl, rfl, by decide⟩

/-- If any line fails to decode, the whole per-line traversal yields
nothing (no partial array). -/
lemma tryParseAll_none_of_fail (p : List Char → Except String Json) :
    ∀ (lines : List (List Char)) (l : List Char), l ∈ lines → (p l).toOption = none →
      tryParseAll p lines = none := by
  intro lines
  induction lines with
  | nil => intro l h _; simp at h
  | cons a rest ih =>
    intro l hl he
    rcases List.mem_cons.mp hl with h | h
    · subst h
      simp [tryParseAll, he]
    · cases hpa : (p a).toOption with
      | none => simp [tryParseAll, hpa]
      | some v => simp [tryParseAll, hpa, ih l h he]

/-- A successful per-line traversal returns exactly the per-line parsed
values, in original order. -/
lemma tryParseAll_some_spec (p : List Char → Except String Json) :
    ∀ (lines : List (List Char)) (vs : List Json),
      tryParseAll p lines = some vs →
        vs.length = lines.length ∧
        ∀ i, i < lines.length → (p (lines.getD i [])).toOption = some (vs.getD i Json.null) := by
  intro lines
  induction lines with
  | nil =>
    intro vs h
    simp [tryParseAll] at h
    subst h
    exact ⟨rfl, by intro i hi; simp at hi⟩
  | cons a rest ih =>
    intro vs h
    rw [tryParseAll] at h
    cases hpa : (p a).toOption with
    | none => rw [hpa] at h; simp at h
    | some v =>
      rw [hpa] at h
      cases hrest : tryParseAll p rest with
      | none => rw [hrest] at h; simp at h
      | some ws =>
        rw [hrest] at h
        simp at h
        obtain ⟨hlen, hget⟩ := ih ws hrest
        subst h
        refine ⟨by simp [hlen], ?_⟩
        intro i hi
        cases i with
        | zero => simpa using hpa
        | succ i2 =>
          have := hget i2 (by simpa using Nat.lt_of_succ_lt_succ hi)
          simpa using this

/-- When every line decodes, the traversal succeeds. -/
lemma tryParseAll_some_of_all (p : List Char → Except String Json) :
    ∀ lines : List (List Char), (∀ l ∈ lines, (p l).toOption ≠ none) →
      ∃ vs, tryParseAll p lines = some vs := by
  intro lines
  induction lines with
  | nil => intro _; exact ⟨[], rfl⟩
  | cons a rest ih =>
    intro h
    have ha := h a (List.mem_cons_self a rest)
    cases hpa : (p a).toOption with
    | none => exact absurd hpa ha
    | some v =>
      obtain ⟨vs, hvs⟩ := ih (fun l hl => h l (List.mem_cons_of_mem a hl))
      exact ⟨v :: vs, by simp [tryParseAll, hpa, hvs]⟩

/-- C4: when direct decode fails and more than one non-blank trimmed
line remains, the NDJSON strategy returns the array of per-line parsed
values in order exactly when every line parses; if any line fails, the
strategy contributes nothing and interpretation falls through to
embedded-JSON extraction. -/
theorem ndjson_strategy (p : List Char → Except String Json) (raw fe : String)
    (h1 : p (jsTrimL raw.toList) = .error fe)
    (h2 : (nonBlankLines (jsTrimL raw.toList)).length > 1) :
    (∀ vs, tryParseAll p (nonBlankLines (jsTrimL raw.toList)) = some vs →
        parsePossibleJsonWith p raw = .ok (.arr vs) ∧
        vs.length = (nonBlankLines (jsTrimL raw.toList)).length ∧
        (∀ i, i < (nonBlankLines (jsTrimL raw.toList)).length →
          (p ((nonBlankLines (jsTrimL raw.toList)).getD i [])).toOption =
            some (vs.getD i Json.null))) ∧
    ((∃ l ∈ nonBlankLines (jsTrimL raw.toList), (p l).toOption = none) →
        ndjsonTry p (jsTrimL raw.toList) = none ∧
        parsePossibleJsonWith p raw = embeddedTry p (jsTrimL raw.toList) fe) ∧
    ((∀ l ∈ nonBlankLines (jsTrimL raw.toList), (p l).toOption ≠ none) →
        ∃ vs, tryParseAll p (nonBlankLines (jsTrimL raw.toList)) = some vs) := by
  have h0 : jsTrimL raw.toList ≠ [] := by
    intro hh
    have hempty : nonBlankLines ([] : List Char) = [] := rfl
    rw [hh, hempty] at h2
    simp at h2
  refine ⟨?_, ?_, fun hall => tryParseAll_some_of_all p _ hall⟩
  · intro vs hvs
    have hnd : ndjsonTry p (jsTrimL raw.toList) = some (Json.arr vs) := by
      unfold ndjsonTry
      rw [if_pos h2, hvs]
      rfl
    have hmain : parsePossibleJsonWith p raw = .ok (.arr vs) := by
      unfold parsePossibleJsonWith
      rw [if_neg h0, h1, hnd]
    obtain ⟨hlen, hget⟩ := tryParseAll_some_spec p _ vs hvs
    exact ⟨hmain, hlen, hget⟩
  · intro hfail
    obtain ⟨l, hl, he⟩ := hfail
    have hnone := tryParseAll_none_of_fail p _ l hl he
    have hnd : ndjsonTry p (jsTrimL raw.toList) = none := by
      unfold ndjsonTry
      rw [if_pos h2, hnone]
      rfl
    exact ⟨hnd, parsePossibleJsonWith_error_branch p raw fe h0 h1 hnd⟩

/-- Witness for C4 at the spec's NDJSON example: two JSON lines decode
to the two-element array, in order. -/
theorem ndjson_strategy_witness :
    parsePossibleJson "\x7b\"a\":1\x7d\n\x7b\"b\":2\x7d" =
      .ok (Json.arr [Json.obj [("a", Json.num 1 0)], Json.obj [("b", Json.num 2 0)]]) := by
  have h := ndjson_strategy jsonParseL "\x7b\"a\":1\x7d\n\x7b\"b\":2\x7d"
    "Unexpected token \x7b after JSON data" (by rfl) (by decide)
  exact (h.1 [Json.obj [("a", Json.num 1 0)], Json.obj [("b", Json.num 2 0)]] (by rfl)).1

/-- Claim-side description of the embedded-extraction start: the
earliest occurrence of an opening bracket or brace. -/
def specJsonStart (t : List Char) : Option Nat :=
  findIdxC (fun c => c = '[' || c = '{') t

/-- Claim-side description of the embedded-extraction end: the latest
occurrence of a closing bracket or brace. -/
def specJsonEnd (t : List Char) : Option Nat :=
  lastIdxC (fun c => c = ']' || c = '}') t

/-- Combine two optional indices, taking the smaller when both exist. -/
def omin : Option Nat → Option Nat → Option Nat
  | some i, some j => some (min i j)
  | some i, none => some i
  | none, some j => some j
  | none, none => none

/-- `omin` commutes with shifting both indices by one. -/
lemma omin_map_succ (x y : Option Nat) :
    (omin x y).map (· + 1) = omin (x.map (· + 1)) (y.map (· + 1)) := by
  cases x with
  | none => cases y <;> rfl
  | some i =>
    cases y with
    | none => rfl
    | some j =>
      show some (min i j + 1) = some (min (i + 1) (j + 1))
      congr 1
      omega

/-- `omin` with a zero first index is zero. -/
lemma omin_zero_left (y : Option Nat) : omin (some 0) y = some 0 := by
  cases y with
  | none => rfl
  | some j =>
    show some (min 0 j) = some 0
    simp

/-- `omin` with a zero second index is zero. -/
lemma omin_zero_right (x : Option Nat) : omin x (some 0) = some 0 := by
  cases x with
  | none => rfl
  | some i =>
    show some (min i 0) = some 0
    simp

/-- The first index of a two-character class is the smaller of the two
single-character first indices. -/
lemma findIdxC_or (a b : Char) :
    ∀ t : List Char,
      findIdxC (fun c => c = a || c = b) t =
        omin (findIdxC (fun c => c = a) t) (findIdxC (fun c => c = b) t) := by
  intro t
  induction t with
  | nil => rfl
  | cons c rest ih =>
    by_cases hca : c = a
    · have h1 : findIdxC (fun c => c = a) (c :: rest) = some 0 := by
        simp [findIdxC, hca]
      have h2 : findIdxC (fun c => c = a || c = b) (c :: rest) = some 0 := by
        simp [findIdxC, hca]
      rw [h2, h1, omin_zero_left]
    · by_cases hcb : c = b
      · have h1 : findIdxC (fun c => c = a) (c :: rest) =
            (findIdxC (fun c => c = a) rest).map (· + 1) := by
          simp [findIdxC, hca]
        have h2 : findIdxC (fun c => c = b) (c :: rest) = some 0 := by
          simp [findIdxC, hcb]
        have h3 : findIdxC (fun c => c = a || c = b) (c :: rest) = some 0 := by
          simp [findIdxC, hcb]
        rw [h3, h1, h2, omin_zero_right]
      · have h1 : findIdxC (fun c => c = a) (c :: rest) =
            (findIdxC (fun c => c = a) rest).map (· + 1) := by
          simp [findIdxC, hca]
        have h2 : findIdxC (fun c => c = b) (c :: rest) =
            (findIdxC (fun c => c = b) rest).map (· + 1) := by
          simp [findIdxC, hcb]
        have h3 : findIdxC (fun c => c = a || c = b) (c :: rest) =
            (findIdxC (fun c => c = a || c = b) rest).map (· + 1) := by
          simp [findIdxC, hca, hcb]
        rw [h1, h2, h3, ih, omin_map_succ]

/-- A found index is inside the list. -/
lemma findIdxC_lt_length (p : Char → Bool) :
    ∀ (t : List Char) (i : Nat), findIdxC p t = some i → i < t.length := by
  intro t
  induction t with
  | nil => intro i h; simp [findIdxC] at h
  | cons c rest ih =>
    intro i h
    rw [findIdxC] at h
    by_cases hc : p c
    · rw [if_pos hc] at h
      cases h
      simp
    · rw [if_neg hc] at h
      cases hrec : findIdxC p rest with
      | none => rw [hrec] at h; simp at h
      | some j =>
        rw [hrec] at h
        simp at h
        have := ih j hrec
        simp [← h]
        omega

/-- The source's start-index computation (`Math.min` over the
non-negative `indexOf` results) agrees with the claim-side earliest
occurrence of an opening bracket or brace. -/
lemma jsonStartOf_eq_spec (t : List Char) :
    jsonStartOf t = (match specJsonStart t with | some s => (s : Int) | none => -1) := by
  have hneg : ¬ ((-1 : Int) ≥ 0) := by decide
  unfold jsonStartOf specJsonStart idxOfI
  rw [findIdxC_or '[' '{' t]
  cases h1 : findIdxC (fun c => c = '[') t with
  | none =>
    cases h2 : findIdxC (fun c => c = '{') t with
    | none => simp [omin, List.filter_cons, List.filter_nil, hneg]
    | some j => simp [omin, List.filter_cons, List.filter_nil, hneg, Int.natCast_nonneg]
  | some i =>
    cases h2 : findIdxC (fun c => c = '{') t with
    | none => simp [omin, List.filter_cons, List.filter_nil, hneg, Int.natCast_nonneg]
    | some j =>
      simp [omin, List.filter_cons, List.filter_nil, Int.natCast_nonneg, Nat.cast_min]

/-- The source's end-index computation (`Math.max` of the two
`lastIndexOf` results) agrees with the claim-side latest occurrence of
a closing bracket or brace. -/
lemma jsonEndOf_eq_spec (t : List Char) :
    jsonEndOf t = (match specJsonEnd t with | some e => (e : Int) | none => -1) := by
  unfold jsonEndOf specJsonEnd lastIdxOfI lastIdxC
  rw [findIdxC_or ']' '}' t.reverse]
  cases h1 : findIdxC (fun c => c = ']') t.reverse with
  | none =>
    cases h2 : findIdxC (fun c => c = '}') t.reverse with
    | none => simp [omin]
    | some j =>
      have hj := findIdxC_lt_length _ t.reverse j h2
      rw [List.length_reverse] at hj
      simp [omin]
      omega
  | some i =>
    have hi := findIdxC_lt_length _ t.reverse i h1
    rw [List.length_reverse] at hi
    cases h2 : findIdxC (fun c => c = '}') t.reverse with
    | none =>
      simp [omin]
      omega
    | some j =>
      have hj := findIdxC_lt_length _ t.reverse j h2
      rw [List.length_reverse] at hj
      simp [omin]
      have hmm : t.length - 1 - min i j = max (t.length - 1 - i) (t.length - 1 - j) := by
        omega
      rw [hmm, Nat.cast_max]

/-- C5: when direct decode and NDJSON both fail, and an embedded span
exists (earliest opening bracket/brace at `s`, latest closing
bracket/brace at `e`, with `e` strictly after `s`), the interpreter
parses exactly the inclusive slice from `s` to `e`. -/
theorem embedded_extraction (p : List Char → Except String Json) (raw fe : String)
    (s e : Nat)
    (h1 : p (jsTrimL raw.toList) = .error fe)
    (h2 : ndjsonTry p (jsTrimL raw.toList) = none)
    (h3 : specJsonStart (jsTrimL raw.toList) = some s)
    (h4 : specJsonEnd (jsTrimL raw.toList) = some e)
    (h5 : s < e) :
    parsePossibleJsonWith p raw =
      p (((jsTrimL raw.toList).drop s).take (e + 1 - s)) := by
  have h0 : jsTrimL raw.toList ≠ [] := by
    intro hh
    rw [hh] at h3
    simp [specJsonStart, findIdxC] at h3
  rw [parsePossibleJsonWith_error_branch p raw fe h0 h1 h2]
  have hs := jsonStartOf_eq_spec (jsTrimL raw.toList)
  have he := jsonEndOf_eq_spec (jsTrimL raw.toList)
  rw [h3] at hs
  rw [h4] at he
  have hs2 : jsonStartOf (jsTrimL raw.toList) = (s : Int) := by rw [hs]
  have he2 : jsonEndOf (jsTrimL raw.toList) = (e : Int) := by rw [he]
  have hcond : jsonStartOf (jsTrimL raw.toList) ≥ 0 ∧
      jsonEndOf (jsTrimL raw.toList) > jsonStartOf (jsTrimL raw.toList) := by
    rw [hs2, he2]
    exact ⟨Int.natCast_nonneg s, by exact_mod_cast h5⟩
  unfold embeddedTry
  rw [if_pos hcond, hs2, he2]
  simp [Int.toNat_natCast]

/-- Witness for C5 at the spec's banner example: the embedded array is
extracted and parsed. -/
theorem embedded_extraction_witness :
    parsePossibleJson "Warning: deprecated\n[\x7b\"a\":1\x7d]\n" =
      .ok (Json.arr [Json.obj [("a", Json.num 1 0)]]) := by
  have h := embedded_extraction jsonParseL "Warning: deprecated\n[\x7b\"a\":1\x7d]\n"
    "Unexpected token W in JSON" 20 28 (by rfl) (by rfl) (by rfl) (by rfl) (by decide)
  exact h.trans rfl

/-- Looking up a replaced key finds the new value. -/
lemma lookupKv_map_replace (k : String) (v : Json) :
    ∀ kvs : List (String × Json), kvs.any (fun kv => kv.1 = k) = true →
      lookupKv (kvs.map (fun kv => if kv.1 = k then (k, v) else kv)) k = some v := by
  intro kvs
  induction kvs with
  | nil => intro h; simp at h
  | cons a rest ih =>
    intro h
    by_cases ha : a.1 = k
    · simp [lookupKv, ha]
    · have hrest : rest.any (fun kv => kv.1 = k) = true := by
        simp [ha] at h
        simpa using h
      simp [lookupKv, ha, ih hrest]

/-- Looking up an appended key finds the appended value when the key
was absent. -/
lemma lookupKv_append_single (k : String) (v : Json) :
    ∀ kvs : List (String × Json), kvs.any (fun kv => kv.1 = k) = false →
      lookupKv (kvs ++ [(k, v)]) k = some v := by
  intro kvs
  induction kvs with
  | nil => intro _; simp [lookupKv]
  | cons a rest ih =>
    intro h
    simp at h
    simp [lookupKv, h.1, ih (by simpa using h.2)]

/-- `insertKey` makes the inserted binding visible. -/
lemma lookupKv_insertKey_same (kvs : List (String × Json)) (k : String) (v : Json) :
    lookupKv (insertKey kvs k v) k = some v := by
  unfold insertKey
  by_cases h : kvs.any (fun kv => kv.1 = k)
  · rw [if_pos h]
    exact lookupKv_map_replace k v kvs h
  · rw [if_neg h]
    exact lookupKv_append_single k v kvs (by simp only [Bool.not_eq_true] at h; exact h)

/-- `insertKey` leaves other keys untouched. -/
lemma lookupKv_insertKey_ne (kvs : List (String × Json)) (k : String) (v : Json)
    (k2 : String) (hne : k2 ≠ k) :
    lookupKv (insertKey kvs k v) k2 = lookupKv kvs k2 := by
  unfold insertKey
  by_cases h : kvs.any (fun kv => kv.1 = k)
  · rw [if_pos h]
    clear h
    induction kvs with
    | nil => rfl
    | cons a rest ih =>
      by_cases ha : a.1 = k
      · have hak : ¬ (k = k2) := fun hh => hne hh.symm
        have ha2 : ¬ (a.1 = k2) := by rw [ha]; exact hak
        simp [lookupKv, ha, hak, ha2, ih]
      · by_cases ha2 : a.1 = k2
        · simp [lookupKv, ha, ha2, hne]
        · simp [lookupKv, ha, ha2, ih]
  · rw [if_neg h]
    clear h
    induction kvs with
    | nil =>
      have : ¬ (k = k2) := fun hh => hne hh.symm
      simp [lookupKv, this]
    | cons a rest ih =>
      by_cases ha2 : a.1 = k2
      · simp [lookupKv, ha2]
      · simp [lookupKv, ha2, ih]

/-- The canonical `uuid` field of a normalized host. -/
lemma normalizeHost_uuid (x : Json) :
    getField (normalizeHost x) "uuid" = some (.str (chainVal (uuidCands x))) := by
  show lookupKv _ "uuid" = _
  rw [lookupKv_insertKey_ne _ _ _ _ (by decide), lookupKv_insertKey_ne _ _ _ _ (by decide),
    lookupKv_insertKey_ne _ _ _ _ (by decide), lookupKv_insertKey_same]

/-- The canonical `hostname` field of a normalized host. -/
lemma normalizeHost_hostname (x : Json) :
    getField (normalizeHost x) "hostname" = some (.str (chainVal (hostnameCands x))) := by
  show lookupKv _ "hostname" = _
  rw [lookupKv_insertKey_ne _ _ _ _ (by decide), lookupKv_insertKey_ne _ _ _ _ (by decide),
    lookupKv_insertKey_same]

/-- The canonical `platform` field of a normalized host. -/
lemma normalizeHost_platform (x : Json) :
    getField (normalizeHost x) "platform" = some (.str (chainVal (platformCands x))) := by
  show lookupKv _ "platform" = _
  rw [lookupKv_insertKey_ne _ _ _ _ (by decide), lookupKv_insertKey_same]

/-- The canonical `status` field of a normalized host. -/
lemma normalizeHost_status (x : Json) :
    getField (normalizeHost x) "status" = some (.str (chainVal (statusCands x))) := by
  show lookupKv _ "status" = _
  rw [lookupKv_insertKey_same]

/-- Every non-canonical key of a normalized host carries the value the
original element's spread gave it. -/
lemma normalizeHost_other (x : Json) (k : String)
    (h1 : k ≠ "uuid") (h2 : k ≠ "hostname") (h3 : k ≠ "platform") (h4 : k ≠ "status") :
    getField (normalizeHost x) k = lookupKv (spreadFields x) k := by
  show lookupKv _ k = _
  rw [lookupKv_insertKey_ne _ _ _ _ h4, lookupKv_insertKey_ne _ _ _ _ h3,
    lookupKv_insertKey_ne _ _ _ _ h2, lookupKv_insertKey_ne _ _ _ _ h1]

/-- Is an optional field value an array? (`Array.isArray` on a possibly
absent property.) -/
def isArrField : Option Json → Bool
  | some (.arr _) => true
  | _ => false

/-- When the `hosts` field is not an array, shape resolution moves on
to the `data` field. -/
lemma extract_obj_hosts_not_arr (kvs : List (String × Json))
    (h : isArrField (getField (Json.obj kvs) "hosts") = false) :
    extractHostsFromOutput (Json.obj kvs) =
      (match getField (Json.obj kvs) "data" with
        | some (.arr ds) => ds.map normalizeHost
        | _ => [normalizeHost (Json.obj kvs)]) := by
  unfold extractHostsFromOutput
  cases hcase : getField (Json.obj kvs) "hosts" with
  | none => rfl
  | some w =>
    cases w with
    | arr hs => rw [hcase] at h; simp [isArrField] at h
    | null => rfl
    | bool b => rfl
    | num m e => rfl
    | str s => rfl
    | obj kvs2 => rfl

/-- When neither `hosts` nor `data` is an array, the object itself is
treated as a single host. -/
lemma extract_obj_data_not_arr (kvs : List (String × Json))
    (h1 : isArrField (getField (Json.obj kvs) "hosts") = false)
    (h2 : isArrField (getField (Json.obj kvs) "data") = false) :
    extractHostsFromOutput (Json.obj kvs) = [normalizeHost (Json.obj kvs)] := by
  rw [extract_obj_hosts_not_arr kvs h1]
  cases hcase : getField (Json.obj kvs) "data" with
  | none => rfl
  | some w =>
    cases w with
    | arr ds => rw [hcase] at h2; simp [isArrField] at h2
    | null => rfl
    | bool b => rfl
    | num m e => rfl
    | str s => rfl
    | obj kvs2 => rfl

/-- C6 (amended): shape resolution order of the Record Normalizer — a
sequence is normalized element-wise; otherwise a mapping with an
array-valued `hosts` field uses that array; otherwise an array-valued
`data` field; otherwise a mapping is wrapped as a single device; and a
value that is neither a sequence nor a mapping (strings, numbers,
booleans, null) yields the EMPTY sequence, not a one-element one. -/
theorem extractHosts_shape (v : Json) :
    (∀ xs, v = .arr xs → extractHostsFromOutput v = xs.map normalizeHost) ∧
    (∀ kvs, v = .obj kvs →
      (∀ hs, getField v "hosts" = some (.arr hs) →
        extractHostsFromOutput v = hs.map normalizeHost) ∧
      (isArrField (getField v "hosts") = false →
        (∀ ds, getField v "data" = some (.arr ds) →
          extractHostsFromOutput v = ds.map normalizeHost) ∧
        (isArrField (getField v "data") = false →
          extractHostsFromOutput v = [normalizeHost v]))) ∧
    ((∀ xs, v ≠ .arr xs) → (∀ kvs, v ≠ .obj kvs) → extractHostsFromOutput v = []) := by
  cases v with
  | null =>
    exact ⟨fun xs hx => Json.noConfusion hx, fun kvs hk => Json.noConfusion hk,
      fun _ _ => rfl⟩
  | bool b =>
    exact ⟨fun xs hx => Json.noConfusion hx, fun kvs hk => Json.noConfusion hk,
      fun _ _ => rfl⟩
  | num m e =>
    exact ⟨fun xs hx => Json.noConfusion hx, fun kvs hk => Json.noConfusion hk,
      fun _ _ => rfl⟩
  | str s =>
    exact ⟨fun xs hx => Json.noConfusion hx, fun kvs hk => Json.noConfusion hk,
      fun _ _ => rfl⟩
  | arr xs =>
    refine ⟨?_, fun kvs hk => Json.noConfusion hk, fun h1 _ => absurd rfl (h1 xs)⟩
    intro xs2 hx
    injection hx with h
    subst h
    rfl
  | obj kvs =>
    refine ⟨fun xs hx => Json.noConfusion hx, ?_, fun _ h2 => absurd rfl (h2 kvs)⟩
    intro kvs2 _
    refine ⟨?_, ?_⟩
    · intro hs hh
      unfold extractHostsFromOutput
      rw [hh]
    · intro hfalse
      refine ⟨?_, ?_⟩
      · intro ds hd
        rw [extract_obj_hosts_not_arr kvs hfalse, hd]
      · intro hdfalse
        exact extract_obj_data_not_arr kvs hfalse hdfalse

/-- Witness for C6 (amended) at a mapping with an array-valued `hosts`
field. -/
theorem extractHosts_shape_witness :
    extractHostsFromOutput (Json.obj [("hosts", Json.arr [Json.obj [("uuid", Json.str "u1")]])]) =
      [normalizeHost (Json.obj [("uuid", Json.str "u1")])] := by
  have h := extractHosts_shape (Json.obj [("hosts", Json.arr [Json.obj [("uuid", Json.str "u1")]])])
  exact (h.2.1 _ rfl).1 _ (by rfl)

/-- Counterexample for C6 as stated: a plain string normalizes to the
empty sequence, not to a one-element sequence. -/
theorem extractHosts_shape_cex :
    extractHostsFromOutput (Json.str "x") = [] ∧
    (extractHostsFromOutput (Json.str "x")).length ≠ 1 := by
  exact ⟨rfl, by decide⟩

/-- `isArrField` characterisation. -/
lemma isArrField_true_iff (o : Option Json) :
    isArrField o = true ↔ ∃ hs, o = some (.arr hs) := by
  cases o with
  | none => simp [isArrField]
  | some w => cases w <;> simp [isArrField]

/-- Every record produced by the Record Normalizer is the
normalization of some element. -/
lemma extract_mem_is_normalized (v : Json) :
    ∀ h ∈ extractHostsFromOutput v, ∃ y, h = normalizeHost y := by
  intro h hmem
  cases v with
  | null => simp [extractHostsFromOutput] at hmem
  | bool b => simp [extractHostsFromOutput] at hmem
  | num m e => simp [extractHostsFromOutput] at hmem
  | str s => simp [extractHostsFromOutput] at hmem
  | arr xs =>
    obtain ⟨y, _, hy⟩ := List.mem_map.mp hmem
    exact ⟨y, hy.symm⟩
  | obj kvs =>
    by_cases hhosts : isArrField (getField (Json.obj kvs) "hosts") = true
    · obtain ⟨hs, hcase⟩ := (isArrField_true_iff _).mp hhosts
      have heq : extractHostsFromOutput (Json.obj kvs) = hs.map normalizeHost := by
        unfold extractHostsFromOutput
        rw [hcase]
      rw [heq] at hmem
      obtain ⟨y, _, hy⟩ := List.mem_map.mp hmem
      exact ⟨y, hy.symm⟩
    · have hh2 : isArrField (getField (Json.obj kvs) "hosts") = false := by
        simp only [Bool.not_eq_true] at hhosts
        exact hhosts
      by_cases hdata : isArrField (getField (Json.obj kvs) "data") = true
      · obtain ⟨ds, hdcase⟩ := (isArrField_true_iff _).mp hdata
        have heq : extractHostsFromOutput (Json.obj kvs) = ds.map normalizeHost := by
          rw [extract_obj_hosts_not_arr kvs hh2, hdcase]
        rw [heq] at hmem
        obtain ⟨y, _, hy⟩ := List.mem_map.mp hmem
        exact ⟨y, hy.symm⟩
      · have hd2 : isArrField (getField (Json.obj kvs) "data") = false := by
          simp only [Bool.not_eq_true] at hdata
          exact hdata
        rw [extract_obj_data_not_arr kvs hh2 hd2] at hmem
        rw [List.mem_singleton] at hmem
        exact ⟨Json.obj kvs, hmem⟩

/-- C7 (amended): normalization is total — the four canonical fields of
every record are always present as strings (equal to their candidate
chains, hence the empty string when no candidate is truthy), every
record of a normalized batch carries all four, and every ORIGINAL field
other than the four canonical keys is preserved; the four canonical
keys themselves are overwritten with the coerced canonical values. -/
theorem normalizeHost_total_fields (v x : Json) :
    (getField (normalizeHost x) "uuid" = some (.str (chainVal (uuidCands x))) ∧
     getField (normalizeHost x) "hostname" = some (.str (chainVal (hostnameCands x))) ∧
     getField (normalizeHost x) "platform" = some (.str (chainVal (platformCands x))) ∧
     getField (normalizeHost x) "status" = some (.str (chainVal (statusCands x)))) ∧
    (firstTruthy (uuidCands x) = none → chainVal (uuidCands x) = "") ∧
    (∀ k, k ≠ "uuid" → k ≠ "hostname" → k ≠ "platform" → k ≠ "status" →
      getField (normalizeHost x) k = lookupKv (spreadFields x) k) ∧
    (∀ h ∈ extractHostsFromOutput v,
      (∃ s1, getField h "uuid" = some (.str s1)) ∧
      (∃ s2, getField h "hostname" = some (.str s2)) ∧
      (∃ s3, getField h "platform" = some (.str s3)) ∧
      (∃ s4, getField h "status" = some (.str s4))) := by
  refine ⟨⟨normalizeHost_uuid x, normalizeHost_hostname x, normalizeHost_platform x,
    normalizeHost_status x⟩, ?_, normalizeHost_other x, ?_⟩
  · intro h
    unfold chainVal
    rw [h]
  · intro h hmem
    obtain ⟨y, hy⟩ := extract_mem_is_normalized v h hmem
    subst hy
    exact ⟨⟨_, normalizeHost_uuid y⟩, ⟨_, normalizeHost_hostname y⟩,
      ⟨_, normalizeHost_platform y⟩, ⟨_, normalizeHost_status y⟩⟩

/-- Witness for C7 (amended): a record with no canonical sources gets
empty-string canonical fields, and a non-canonical field is preserved. -/
theorem normalizeHost_total_fields_witness :
    getField (normalizeHost (Json.obj [("foo", Json.bool true)])) "uuid" =
      some (Json.str "") ∧
    getField (normalizeHost (Json.obj [("foo", Json.bool true)])) "foo" =
      some (Json.bool true) := by
  have h := normalizeHost_total_fields Json.null (Json.obj [("foo", Json.bool true)])
  constructor
  · exact h.1.1.trans (by rfl)
  · exact (h.2.2.1 "foo" (by decide) (by decide) (by decide) (by decide)).trans (by rfl)

/-- Counterexample for C7 as stated: the original `uuid` field (the
empty string) is NOT preserved alongside the canonical fields — the
canonical value "X" extracted from `spec.uuid` replaces it. -/
theorem normalizeHost_preserve_cex :
    getField (Json.obj [("uuid", Json.str ""), ("spec", Json.obj [("uuid", Json.str "X")])])
      "uuid" = some (Json.str "") ∧
    getField (normalizeHost (Json.obj [("uuid", Json.str ""),
      ("spec", Json.obj [("uuid", Json.str "X")])])) "uuid" = some (Json.str "X") ∧
    Json.str "" ≠ Json.str "X" := by
  refine ⟨rfl, rfl, ?_⟩
  intro h
  injection h with h2
  exact absurd h2 (by decide)

/-- A candidate is absent or holds a string (the schema situation the
spec's lookup table describes). -/
def strOrAbsentB : Option Json → Bool
  | none => true
  | some (.str _) => true
  | _ => false

/-- Claim-side priority rule: the first candidate that is present and a
non-empty string wins; otherwise the empty string. -/
def firstNonEmptyStr : List (Option Json) → String
  | [] => ""
  | some (Json.str s) :: rest => if s = "" then firstNonEmptyStr rest else s
  | _ :: rest => firstNonEmptyStr rest

/-- Over string-or-absent candidates, the source's truthiness chain
computes exactly the first non-empty string of the candidate list. -/
lemma chainVal_eq_firstNonEmptyStr :
    ∀ cands : List (Option Json), cands.all strOrAbsentB = true →
      chainVal cands = firstNonEmptyStr cands := by
  intro cands
  induction cands with
  | nil => intro _; rfl
  | cons o rest ih =>
    intro h
    rw [List.all_cons, Bool.and_eq_true] at h
    obtain ⟨ho, hrest⟩ := h
    cases o with
    | none =>
      have e1 : chainVal (none :: rest) = chainVal rest := rfl
      have e2 : firstNonEmptyStr (none :: rest) = firstNonEmptyStr rest := rfl
      rw [e1, e2]
      exact ih hrest
    | some w =>
      cases w with
      | null => simp [strOrAbsentB] at ho
      | bool b => simp [strOrAbsentB] at ho
      | num m e => simp [strOrAbsentB] at ho
      | arr xs => simp [strOrAbsentB] at ho
      | obj kvs => simp [strOrAbsentB] at ho
      | str s =>
        by_cases hs : s = ""
        · subst hs
          have e1 : chainVal (some (Json.str "") :: rest) = chainVal rest := rfl
          have e2 : firstNonEmptyStr (some (Json.str "") :: rest) = firstNonEmptyStr rest := rfl
          rw [e1, e2]
          exact ih hrest
        · simp [chainVal, firstTruthy, firstNonEmptyStr, jsTruthy, hs, jsToString]

/-- C8: per-element canonical extraction follows the fixed priority
chains (in source order) with the first non-empty string winning, over
records whose candidate fields are strings or absent; matched values
are returned as strings. -/
theorem canonical_priority (x : Json)
    (hu : (uuidCands x).all strOrAbsentB = true)
    (hn : (hostnameCands x).all strOrAbsentB = true)
    (hp : (platformCands x).all strOrAbsentB = true)
    (hs : (statusCands x).all strOrAbsentB = true) :
    getField (normalizeHost x) "uuid" = some (.str (firstNonEmptyStr (uuidCands x))) ∧
    getField (normalizeHost x) "hostname" = some (.str (firstNonEmptyStr (hostnameCands x))) ∧
    getField (normalizeHost x) "platform" = some (.str (firstNonEmptyStr (platformCands x))) ∧
    getField (normalizeHost x) "status" = some (.str (firstNonEmptyStr (statusCands x))) := by
  refine ⟨?_, ?_, ?_, ?_⟩
  · rw [normalizeHost_uuid x, chainVal_eq_firstNonEmptyStr _ hu]
  · rw [normalizeHost_hostname x, chainVal_eq_firstNonEmptyStr _ hn]
  · rw [normalizeHost_platform x, chainVal_eq_firstNonEmptyStr _ hp]
  · rw [normalizeHost_status x, chainVal_eq_firstNonEmptyStr _ hs]

/-- Witness for C8 at the spec's example: only `spec.hardware_uuid` and
`spec.computer_name` are set, so id is "X", displayName is "Y", and
platform and status default to the empty string. -/
theorem canonical_priority_witness :
    getField (normalizeHost (Json.obj [("spec", Json.obj [("hardware_uuid", Json.str "X"),
      ("computer_name", Json.str "Y")])])) "uuid" = some (Json.str "X") ∧
    getField (normalizeHost (Json.obj [("spec", Json.obj [("hardware_uuid", Json.str "X"),
      ("computer_name", Json.str "Y")])])) "hostname" = some (Json.str "Y") ∧
    getField (normalizeHost (Json.obj [("spec", Json.obj [("hardware_uuid", Json.str "X"),
      ("computer_name", Json.str "Y")])])) "platform" = some (Json.str "") ∧
    getField (normalizeHost (Json.obj [("spec", Json.obj [("hardware_uuid", Json.str "X"),
      ("computer_name", Json.str "Y")])])) "status" = some (Json.str "") := by
  have h := canonical_priority (Json.obj [("spec", Json.obj [("hardware_uuid", Json.str "X"),
    ("computer_name", Json.str "Y")])]) (by decide) (by decide) (by decide) (by decide)
  exact ⟨h.1.trans (by rfl), h.2.1.trans (by rfl), h.2.2.1.trans (by rfl), h.2.2.2.trans (by rfl)⟩

/-- C9: for each of the four endpoints, a request whose inputs fail
validation is rejected: the handler's decision is an error response,
never a command invocation — so no child process is spawned; for
`/api/run-command` this holds for EVERY filesystem oracle, so the
payload-existence check is not even consulted. -/
theorem validation_fail_fast :
    (∀ (address context : Option String),
      (address = none ∨ (∀ a, address = some a → strStartsWith a "http" = false) ∨
        isValidContext context = false) →
      (configHandler address context).isReject = true) ∧
    (∀ (email password context : Option String),
      (isValidEmail email = false ∨ password = none ∨ password = some "") →
      (loginHandler email password context).isReject = true) ∧
    (∀ contextQuery : Option String,
      isValidContext (some (ctxOrDefault contextQuery)) = false →
      (hostsHandler contextQuery).isReject = true) ∧
    (∀ (payloadExists : String → Bool) (joinPath : String → String)
        (hosts : Option (List Json)) (payload context : Option String),
      (hosts = none ∨ hosts = some [] ∨ isValidContext context = false ∨
        (∃ hs h, hosts = some hs ∧ h ∈ hs ∧ isValidHostIdentifier h = false) ∨
        payload = none ∨ (∀ pl, payload = some pl → isValidFilename pl = false)) →
      (runCommandHandler payloadExists joinPath hosts payload context).isReject = true) := by
  refine ⟨?_, ?_, ?_, ?_⟩
  · intro address context h
    rcases h with rfl | hsw | hctx
    · rfl
    · cases address with
      | none => rfl
      | some a =>
        have hsw2 := hsw a rfl
        simp [configHandler, hsw2, Decision.isReject]
    · cases address with
      | none => rfl
      | some a =>
        unfold configHandler
        split
        · rfl
        · simp [hctx, Decision.isReject]
          split
          · rfl
          · rename_i d args heqc
            split at heqc <;> exact Decision.noConfusion heqc
  · intro email password context h
    rcases h with hmail | rfl | rfl
    · simp [loginHandler, hmail, Decision.isReject]
    · unfold loginHandler
      split
      · rfl
      · cases email with
        | none => rfl
        | some e => rfl
    · unfold loginHandler
      split
      · rfl
      · cases email with
        | none => rfl
        | some e => rfl
  · intro contextQuery h
    simp [hostsHandler, h, Decision.isReject]
  · intro payloadExists joinPath hosts payload context h
    rcases h with rfl | rfl | hctx | hinv | rfl | hfile
    · rfl
    · rfl
    · cases hosts with
      | none => rfl
      | some hs =>
        unfold runCommandHandler
        split
        · rfl
        · rename_i vs heq
          injection heq with heq2
          subst heq2
          split
          · rfl
          · simp [hctx, Decision.isReject]
    · obtain ⟨hs, x, rfl, hmem, hbad⟩ := hinv
      have hne : hs.isEmpty = false := by
        cases hs with
        | nil => simp at hmem
        | cons a rest => rfl
      have hfilter : (hs.filter (fun h => !isValidHostIdentifier h)).isEmpty = false := by
        have hmem2 : x ∈ hs.filter (fun h => !isValidHostIdentifier h) :=
          List.mem_filter.mpr ⟨hmem, by rw [hbad]; rfl⟩
        cases hf : hs.filter (fun h => !isValidHostIdentifier h) with
        | nil => rw [hf] at hmem2; simp at hmem2
        | cons a rest => rfl
      unfold runCommandHandler
      split
      · rfl
      · rename_i vs heq
        injection heq with heq2
        subst heq2
        rw [hne]
        simp only [Bool.false_eq_true, if_false]
        split
        · rfl
        · simp [hfilter, Decision.isReject]
    · cases hosts with
      | none => rfl
      | some hs =>
        unfold runCommandHandler
        split
        · rfl
        · rename_i vs heq
          injection heq with heq2
          subst heq2
          split
          · rfl
          · split
            · rfl
            · split
              · rfl
              · rfl
    · cases hosts with
      | none => rfl
      | some hs =>
        unfold runCommandHandler
        split
        · rfl
        · rename_i vs heq
          injection heq with heq2
          subst heq2
          split
          · rfl
          · split
            · rfl
            · split
              · rfl
              · cases payload with
                | none => rfl
                | some pl =>
                  have hbadf := hfile pl rfl
                  simp [hbadf, Decision.isReject]

/-- Witness for C9: a concrete failing request at each endpoint is
rejected without reaching process execution. -/
theorem validation_fail_fast_witness :
    (configHandler (some "ftp://x") none).isReject = true ∧
    (loginHandler (some "bad") (some "pw") none).isReject = true ∧
    (hostsHandler (some "bad/ctx")).isReject = true ∧
    (runCommandHandler (fun _ => true) (fun s => s)
      (some [Json.num 5 0]) (some "p.xml") none).isReject = true := by
  have h := validation_fail_fast
  refine ⟨h.1 (some "ftp://x") none ?_, h.2.1 (some "bad") (some "pw") none ?_,
    h.2.2.1 (some "bad/ctx") ?_,
    h.2.2.2 (fun _ => true) (fun s => s) (some [Json.num 5 0]) (some "p.xml") none ?_⟩
  · refine Or.inr (Or.inl ?_)
    intro a ha
    injection ha with ha2
    subst ha2
    decide
  · exact Or.inl (by decide)
  · decide
  · refine Or.inr (Or.inr (Or.inr (Or.inl ⟨[Json.num 5 0], Json.num 5 0, rfl, ?_, rfl⟩)))
    exact List.mem_singleton.mpr rfl

/-- Prepending any element preserves an adjacent pair. -/
lemma hasAdjacent_cons (a : String) (l : List String) (x y : String)
    (h : hasAdjacent l x y = true) : hasAdjacent (a :: l) x y = true := by
  cases l with
  | nil => simp [hasAdjacent] at h
  | cons b rest => simp [hasAdjacent, h]

/-- C10: an absent (or null) or empty context passes context validation
(the validator tests the substituted literal "default"), such requests
are never rejected with the context error, and whenever a handler does
reach process execution the executed argument vector contains
"--context" immediately followed by "default". -/
theorem context_default :
    (isValidContext none = true ∧ isValidContext (some "") = true) ∧
    (∀ c : Option String, (c = none ∨ c = some "") →
      ctxOrDefault c = "default" ∧
      (∀ a args, configHandler a c = .run args →
        hasAdjacent args "--context" "default" = true) ∧
      (∀ a s m, configHandler a c = .reject s m → m ≠ "Invalid context name") ∧
      (∀ e p args, loginHandler e p c = .run args →
        hasAdjacent args "--context" "default" = true) ∧
      (∀ e p s m, loginHandler e p c = .reject s m → m ≠ "Invalid context name") ∧
      (hostsHandler c = .run ["get", "hosts", "--mdm", "--json", "--context", "default"]) ∧
      (∀ pe jp hs pl args, runCommandHandler pe jp hs pl c = .run args →
        hasAdjacent args "--context" "default" = true) ∧
      (∀ pe jp hs pl s m, runCommandHandler pe jp hs pl c = .reject s m →
        m ≠ "Invalid context name")) := by
  constructor
  · exact ⟨rfl, rfl⟩
  · intro c hc
    have hctx : ctxOrDefault c = "default" := by rcases hc with rfl | rfl <;> rfl
    have hval : isValidContext c = true := by rcases hc with rfl | rfl <;> rfl
    refine ⟨hctx, ?_, ?_, ?_, ?_, ?_, ?_, ?_⟩
    · intro a args h
      cases a with
      | none => exact Decision.noConfusion h
      | some a2 =>
        have h2 : (if a2 = "" || !strStartsWith a2 "http" then
              Decision.reject 400 "Invalid address URL"
            else if !isValidContext c then Decision.reject 400 "Invalid context name"
            else Decision.run ["config", "set", "--address", a2, "--context",
              ctxOrDefault c]) = Decision.run args := h
        split at h2
        · exact Decision.noConfusion h2
        · split at h2
          · exact Decision.noConfusion h2
          · injection h2 with h3
            subst h3
            rw [hctx]
            exact hasAdjacent_cons _ _ _ _ (hasAdjacent_cons _ _ _ _
              (hasAdjacent_cons _ _ _ _ (hasAdjacent_cons _ _ _ _ (by decide))))
    · intro a s m h
      cases a with
      | none =>
        have h2 : Decision.reject 400 "Invalid address URL" = Decision.reject s m := h
        injection h2 with hs2 hm2
        rw [← hm2]
        decide
      | some a2 =>
        have h2 : (if a2 = "" || !strStartsWith a2 "http" then
              Decision.reject 400 "Invalid address URL"
            else if !isValidContext c then Decision.reject 400 "Invalid context name"
            else Decision.run ["config", "set", "--address", a2, "--context",
              ctxOrDefault c]) = Decision.reject s m := h
        split at h2
        · injection h2 with hs2 hm2
          rw [← hm2]
          decide
        · split at h2
          · rename_i hcond
            rw [hval] at hcond
            simp at hcond
          · exact Decision.noConfusion h2
    · intro e p args h
      cases e with
      | none => exact Decision.noConfusion h
      | some e2 =>
        cases p with
        | none =>
          have h2 : (if !isValidEmail (some e2) then
                Decision.reject 400 "Invalid email format"
              else Decision.reject 400 "Password required") = Decision.run args := h
          split at h2 <;> exact Decision.noConfusion h2
        | some p2 =>
          have h2 : (if !isValidEmail (some e2) then
                Decision.reject 400 "Invalid email format"
              else if p2 = "" then Decision.reject 400 "Password required"
              else Decision.run ["login", "--email", e2, "--password", p2, "--context",
                ctxOrDefault c]) = Decision.run args := h
          split at h2
          · exact Decision.noConfusion h2
          · split at h2
            · exact Decision.noConfusion h2
            · injection h2 with h4
              subst h4
              rw [hctx]
              exact hasAdjacent_cons _ _ _ _ (hasAdjacent_cons _ _ _ _
                (hasAdjacent_cons _ _ _ _ (hasAdjacent_cons _ _ _ _
                  (hasAdjacent_cons _ _ _ _ (by decide)))))
    · intro e p s m h
      cases e with
      | none =>
        have h2 : Decision.reject 400 "Invalid email format" = Decision.reject s m := h
        injection h2 with hs2 hm2
        rw [← hm2]
        decide
      | some e2 =>
        cases p with
        | none =>
          have h2 : (if !isValidEmail (some e2) then
                Decision.reject 400 "Invalid email format"
              else Decision.reject 400 "Password required") = Decision.reject s m := h
          split at h2 <;> (injection h2 with hs2 hm2; rw [← hm2]; decide)
        | some p2 =>
          have h2 : (if !isValidEmail (some e2) then
                Decision.reject 400 "Invalid email format"
              else if p2 = "" then Decision.reject 400 "Password required"
              else Decision.run ["login", "--email", e2, "--password", p2, "--context",
                ctxOrDefault c]) = Decision.reject s m := h
          split at h2
          · injection h2 with hs2 hm2
            rw [← hm2]
            decide
          · split at h2
            · injection h2 with hs2 hm2
              rw [← hm2]
              decide
            · exact Decision.noConfusion h2
    · rcases hc with rfl | rfl <;> rfl
    · intro pe jp hs pl args h
      cases hs with
      | none => exact Decision.noConfusion h
      | some hl =>
        cases pl with
        | none =>
          have h2 : (if hl.isEmpty then Decision.reject 400 "No hosts selected"
              else if !isValidContext c then Decision.reject 400 "Invalid context name"
              else if !(hl.filter (fun h => !isValidHostIdentifier h)).isEmpty then
                Decision.reject 400 ("Invalid host identifiers detected: " ++
                  joinJs ", " (hl.filter (fun h => !isValidHostIdentifier h)))
              else Decision.reject 400 "Invalid payload filename") = Decision.run args := h
          split at h2 <;> (try split at h2) <;> (try split at h2) <;>
            exact Decision.noConfusion h2
        | some pl2 =>
          have h2 : (if hl.isEmpty then Decision.reject 400 "No hosts selected"
              else if !isValidContext c then Decision.reject 400 "Invalid context name"
              else if !(hl.filter (fun h => !isValidHostIdentifier h)).isEmpty then
                Decision.reject 400 ("Invalid host identifiers detected: " ++
                  joinJs ", " (hl.filter (fun h => !isValidHostIdentifier h)))
              else if pl2 = "" || !isValidFilename pl2 then
                Decision.reject 400 "Invalid payload filename"
              else if !pe (jp pl2) then Decision.reject 404 "Payload file not found"
              else Decision.run ["mdm", "run-command", "--payload", jp pl2,
                "--hosts", joinJs "," hl, "--context", ctxOrDefault c]) =
              Decision.run args := h
          split at h2
          · exact Decision.noConfusion h2
          · split at h2
            · exact Decision.noConfusion h2
            · split at h2
              · exact Decision.noConfusion h2
              · split at h2
                · exact Decision.noConfusion h2
                · split at h2
                  · exact Decision.noConfusion h2
                  · injection h2 with h4
                    subst h4
                    rw [hctx]
                    exact hasAdjacent_cons _ _ _ _ (hasAdjacent_cons _ _ _ _
                      (hasAdjacent_cons _ _ _ _ (hasAdjacent_cons _ _ _ _
                        (hasAdjacent_cons _ _ _ _ (hasAdjacent_cons _ _ _ _ (by decide))))))
    · intro pe jp hs pl s m h
      cases hs with
      | none =>
        have h2 : Decision.reject 400 "No hosts selected" = Decision.reject s m := h
        injection h2 with hs2 hm2
        rw [← hm2]
        decide
      | some hl =>
        cases pl with
        | none =>
          have h2 : (if hl.isEmpty then Decision.reject 400 "No hosts selected"
              else if !isValidContext c then Decision.reject 400 "Invalid context name"
              else if !(hl.filter (fun h => !isValidHostIdentifier h)).isEmpty then
                Decision.reject 400 ("Invalid host identifiers detected: " ++
                  joinJs ", " (hl.filter (fun h => !isValidHostIdentifier h)))
              else Decision.reject 400 "Invalid payload filename") =
              Decision.reject s m := h
          split at h2
          · injection h2 with hs2 hm2
            rw [← hm2]
            decide
          · split at h2
            · rename_i hcond
              rw [hval] at hcond
              simp at hcond
            · split at h2
              · injection h2 with hs2 hm2
                rw [← hm2]
                intro heq2
                have hlen := congrArg String.length heq2
                rw [String.length_append] at hlen
                have e1 : ("Invalid host identifiers detected: " : String).length = 35 := rfl
                have e2 : ("Invalid context name" : String).length = 20 := rfl
                rw [e1, e2] at hlen
                omega
              · injection h2 with hs2 hm2
                rw [← hm2]
                decide
        | some pl2 =>
          have h2 : (if hl.isEmpty then Decision.reject 400 "No hosts selected"
              else if !isValidContext c then Decision.reject 400 "Invalid context name"
              else if !(hl.filter (fun h => !isValidHostIdentifier h)).isEmpty then
                Decision.reject 400 ("Invalid host identifiers detected: " ++
                  joinJs ", " (hl.filter (fun h => !isValidHostIdentifier h)))
              else if pl2 = "" || !isValidFilename pl2 then
                Decision.reject 400 "Invalid payload filename"
              else if !pe (jp pl2) then Decision.reject 404 "Payload file not found"
              else Decision.run ["mdm", "run-command", "--payload", jp pl2,
                "--hosts", joinJs "," hl, "--context", ctxOrDefault c]) =
              Decision.reject s m := h
          split at h2
          · injection h2 with hs2 hm2
            rw [← hm2]
            decide
          · split at h2
            · rename_i hcond
              rw [hval] at hcond
              simp at hcond
            · split at h2
              · injection h2 with hs2 hm2
                rw [← hm2]
                intro heq2
                have hlen := congrArg String.length heq2
                rw [String.length_append] at hlen
                have e1 : ("Invalid host identifiers detected: " : String).length = 35 := rfl
                have e2 : ("Invalid context name" : String).length = 20 := rfl
                rw [e1, e2] at hlen
                omega
              · split at h2
                · injection h2 with hs2 hm2
                  rw [← hm2]
                  decide
                · split at h2
                  · injection h2 with hs2 hm2
                    rw [← hm2]
                    decide
                  · exact Decision.noConfusion h2

/-- Witness for C10: with an absent context, config runs with
"--context default", and the hosts handler executes the default
context vector. -/
theorem context_default_witness :
    isValidContext none = true ∧
    hasAdjacent ["config", "set", "--address", "http://x", "--context", "default"]
      "--context" "default" = true ∧
    hostsHandler none = Decision.run ["get", "hosts", "--mdm", "--json", "--context",
      "default"] := by
  have h := context_default
  refine ⟨h.1.1, ?_, (h.2 none (Or.inl rfl)).2.2.2.2.2.1⟩
  exact (h.2 none (Or.inl rfl)).2.1 (some "http://x") _ rfl
